import Mathlib

/-!
Verification of the SmartDrive search server (`smartdrive_server.py`).

This file gives a shallow embedding of the query-enhancement / hybrid-retrieval /
reranking / formatting pipeline of the server, translated function by function
from the Python source, and proves (or refutes) the frozen specification claims
about it.

Modelling conventions:
* Python strings are Lean `String`s (both count unicode code points, so
  `len`/`String.length` agree).  The string literals below reproduce the exact
  code points stored in the source file (the file holds mojibake sequences such
  as U+011F U+0178 U+201D where emoji were intended; Python reads those code
  points verbatim, and so do we).
* Python numbers (Pinecone scores, cross-encoder logits) are modelled as `ℚ`;
  the claims under study are about the score formulas, not about binary
  floating point rounding.
* The external collaborators (embedding provider, Pinecone index, Azure blob
  storage, cross-encoder model) are an explicit environment `Env` of response
  functions, so every theorem quantifies over all collaborator behaviours.
* Python dict semantics: dicts preserve insertion order, so a dict keyed by
  `doc_id` is an association list `List (String × DocInfo)`; key membership is
  `List.lookup`.
* All recursive string scanners below are structural recursions so that they
  evaluate inside the kernel (`decide`).
-/

/-! ## Character and string primitives (Python semantics) -/

/-- Python's whitespace set for `str.split` / `str.strip` / regex `\s`
(ASCII portion; the pipeline's trigger keywords and fillers are ASCII). -/
def pyIsSpace (c : Char) : Bool :=
  c == ' ' || c == '\t' || c == '\n' || c == '\r' || c == '\x0b' || c == '\x0c'

/-- Python regex word character `\w` (ASCII portion): `[A-Za-z0-9_]`. -/
def isWordChar (c : Char) : Bool :=
  c.isAlphanum || c == '_'

/-- Python `str.lower()` (ASCII portion), defined char-wise so it evaluates in
the kernel (Lean's builtin `String.toLower` is position-based and does not). -/
def pyLower (s : String) : String :=
  String.mk (s.data.map Char.toLower)

/-- Python substring test `pat in s`. -/
def strContains (s pat : String) : Bool :=
  s.data.tails.any fun t => pat.data.isPrefixOf t

/-- Case-insensitive prefix test on character lists (regex `IGNORECASE`). -/
def ciStarts : List Char → List Char → Bool
  | [], _ => true
  | _ :: _, [] => false
  | p :: ps, c :: cs => p.toLower == c.toLower && ciStarts ps cs

/-- Python `str.strip()`: drop whitespace from both ends. -/
def pyStripChars (l : List Char) : List Char :=
  ((l.dropWhile pyIsSpace).reverse.dropWhile pyIsSpace).reverse

/-- Python `str.strip()` on strings. -/
def pyStrip (s : String) : String :=
  String.mk (pyStripChars s.data)

/-- Python `str.split()` (no argument): maximal runs of non-whitespace. -/
def pySplitTokens : List Char → List (List Char)
  | [] => []
  | c :: cs =>
    if pyIsSpace c then pySplitTokens cs
    else
      match cs with
      | [] => [[c]]
      | d :: _ =>
        if pyIsSpace d then [c] :: pySplitTokens cs
        else
          match pySplitTokens cs with
          | t :: ts => (c :: t) :: ts
          | [] => [[c]]

/-- Python `' '.join(tokens)` on character lists. -/
def joinTokens : List (List Char) → List Char
  | [] => []
  | [t] => t
  | t :: ts => t ++ ' ' :: joinTokens ts

/-- Python `' '.join(query.split())`: collapse whitespace runs, trim ends. -/
def wsNormalize (s : String) : String :=
  String.mk (joinTokens (pySplitTokens s.data))

/-- Maximal runs of `\w` characters (used for `re.findall(r'\b[A-Za-z0-9]+\b')`:
a maximal word run matches that pattern exactly when it contains no `_`,
because `\b` cannot sit between two word characters). -/
def wordRuns : List Char → List (List Char)
  | [] => []
  | c :: cs =>
    if isWordChar c then
      match cs with
      | [] => [[c]]
      | d :: _ =>
        if isWordChar d then
          match wordRuns cs with
          | t :: ts => (c :: t) :: ts
          | [] => [[c]]
        else [c] :: wordRuns cs
    else wordRuns cs

/-- Python `re.findall(r'\b[A-Za-z0-9]+\b', s)`. -/
def alnumWords (s : String) : List String :=
  ((wordRuns s.data).filter fun r => !r.any (· == '_')).map String.mk

/-! ## The filler-word regexes of the source

`preprocess_query` runs, for each filler phrase `f`,
`re.sub(r'\b' + re.escape(f) + r'\b', '', query, flags=re.IGNORECASE)`:
delete every occurrence of the literal phrase that has word boundaries on both
sides, scanning left to right.  Each scanner below consumes exactly one
character per step (a pending `skip` counter implements jumping over a match),
so it is a structural recursion. -/

/-- Word boundary before the current character: the previous original character
(if any) is not a word character.  All patterns start and end with a word
character, so `\b` reduces to this test. -/
def boundaryBefore (prev : Option Char) : Bool :=
  match prev with
  | none => true
  | some p => !isWordChar p

/-- Word boundary after a match: the next original character (if any) is not a
word character. -/
def boundaryAfter (rest : List Char) : Bool :=
  match rest.head? with
  | none => true
  | some d => !isWordChar d

/-- Scanner for `re.sub(r'\b<phrase>\b', '', s, flags=IGNORECASE)`:
`prev` is the previous character of the original string (for `\b`), `skip` is
the number of still-to-delete characters of a match already committed. -/
def removeBoundedAux (pat : List Char) : Option Char → Nat → List Char → List Char
  | _, _, [] => []
  | _, skip + 1, c :: cs => removeBoundedAux pat (some c) skip cs
  | prev, 0, c :: cs =>
    if !pat.isEmpty && boundaryBefore prev && ciStarts pat (c :: cs)
        && boundaryAfter ((c :: cs).drop pat.length) then
      removeBoundedAux pat (some c) (pat.length - 1) cs
    else
      c :: removeBoundedAux pat (some c) 0 cs

/-- One filler-removal pass of `preprocess_query`. -/
def removeFiller (pat : String) (s : String) : String :=
  String.mk (removeBoundedAux pat.data none 0 s.data)

/-! `generate_query_variations` uses a different pattern,
`re.sub(r'\b(find|search|show|give|get|look)\s+(me|for)?\s*', '', query,
flags=IGNORECASE)`.  The six alternatives are pairwise prefix-incompatible, so
at most one can match at a position; `\s+` demands at least one whitespace
after the keyword, then `(me|for)?` optionally eats a literal `me`/`for`
(with no trailing boundary!), then `\s*` eats remaining whitespace. -/

/-- The alternation `(find|search|show|give|get|look)` in source order. -/
def variationKeywords : List String :=
  ["find", "search", "show", "give", "get", "look"]

/-- Length of the regex match of
`(find|search|show|give|get|look)\s+(me|for)?\s*` at the head of `l`,
or `none` if it does not match there. -/
def matchVariationFiller (l : List Char) : Option Nat :=
  match variationKeywords.find? (fun kw => ciStarts kw.data l) with
  | none => none
  | some kw =>
    let k := kw.length
    let rest := l.drop k
    let w := (rest.takeWhile pyIsSpace).length
    if w = 0 then none
    else
      let rest2 := rest.drop w
      let extra :=
        if ciStarts "me".data rest2 then 2 + ((rest2.drop 2).takeWhile pyIsSpace).length
        else if ciStarts "for".data rest2 then 3 + ((rest2.drop 3).takeWhile pyIsSpace).length
        else 0
      some (k + w + extra)

/-- Scanner for the variation-generator `re.sub` above. -/
def variationSubAux : Option Char → Nat → List Char → List Char
  | _, _, [] => []
  | _, skip + 1, c :: cs => variationSubAux (some c) skip cs
  | prev, 0, c :: cs =>
    match (if boundaryBefore prev then matchVariationFiller (c :: cs) else none) with
    | some n => variationSubAux (some c) (n - 1) cs
    | none => c :: variationSubAux (some c) 0 cs

/-- The full `re.sub(...)` of line 98 of the source. -/
def variationSub (s : String) : String :=
  String.mk (variationSubAux none 0 s.data)

/-! ## Query Rewriter (`preprocess_query`, source lines 45-85) -/

/-- Trigger keyword lists, exactly as in the source. -/
def tax_keywords : List String := ["tax", "1099", "w-2", "w2", "w-9", "1040", "irs", "fiscal"]

def financial_keywords : List String := ["invoice", "receipt", "bill", "payment", "budget", "expense"]

def meeting_keywords : List String := ["meeting", "notes", "minutes", "agenda"]

def project_keywords : List String := ["project", "proposal", "plan", "roadmap"]

def report_keywords : List String := ["report", "analysis", "summary", "quarterly"]

/-- `any(kw in query_lower for kw in kws)`. -/
def anyKeyword (ql : String) (kws : List String) : Bool :=
  kws.any fun kw => strContains ql kw

/-- The filler phrases of `preprocess_query`, in source order. -/
def filler_words : List String := ["find", "search", "show me", "give me", "get me", "look for"]

/-- Semantic-expansion stage of `preprocess_query` (lines 50-75): the five
trigger rules all test `query_lower`, which is computed once from the original
query before any expansion; each firing rule appends its phrase. -/
def expandStage (query : String) : String :=
  let query_lower := pyLower query
  let query := if anyKeyword query_lower tax_keywords then
      query ++ " tax document IRS form fiscal year" else query
  let query := if anyKeyword query_lower financial_keywords then
      query ++ " financial accounting expense" else query
  let query := if anyKeyword query_lower meeting_keywords then
      query ++ " meeting notes discussion agenda" else query
  let query := if anyKeyword query_lower project_keywords then
      query ++ " project plan proposal strategy" else query
  let query := if anyKeyword query_lower report_keywords then
      query ++ " report analysis summary data" else query
  query

/-- Filler-stripping stage of `preprocess_query` (lines 78-80). -/
def fillerStage (query : String) : String :=
  filler_words.foldl (fun acc f => removeFiller f acc) query

/-- `preprocess_query` (lines 45-85): expansion, filler stripping, then
`' '.join(query.split())`. -/
def preprocess_query (query : String) : String :=
  wsNormalize (fillerStage (expandStage query))

/-! ## Variation Generator (`generate_query_variations`, source lines 88-120) -/

/-- The stopword set of line 105. -/
def stopwords : List String :=
  ["the", "a", "an", "and", "or", "but", "in", "on", "at", "to", "for", "of",
   "with", "by", "from", "find", "search", "show", "me", "my"]

/-- The dedup loop of lines 111-117: strip each candidate, drop empties and
already-seen strings, preserve first-occurrence order. -/
def dedupTrim (seen : List String) : List String → List String
  | [] => []
  | v :: vs =>
    let c := pyStrip v
    if c ≠ "" ∧ ¬ seen.contains c then c :: dedupTrim (c :: seen) vs
    else dedupTrim seen vs

/-- `generate_query_variations` (lines 88-120). -/
def generate_query_variations (query : String) : List String :=
  let variations := [query]
  let cleaned := pyStrip (variationSub query)
  let variations := if cleaned ≠ "" ∧ cleaned ≠ query then variations ++ [cleaned] else variations
  let keywords := alnumWords query
  let important_keywords := keywords.filter fun kw => ¬ stopwords.contains (pyLower kw)
  let variations :=
    if important_keywords.length ≥ 2 then variations ++ [" ".intercalate important_keywords]
    else variations
  dedupTrim [] variations

/-! ## Data model and collaborator environment -/

/-- The per-document result dictionary built by `_perform_search` (lines
235-242) and later mutated by `rerank_results` (lines 153-155).  The three
score keys added by the reranker are `Option`s: `none` models "key absent". -/
structure DocInfo where
  file_name : String
  file_path : String
  modified : String
  score : ℚ
  full_text : String
  source_query : String
  original_score : Option ℚ := none
  rerank_score : Option ℚ := none
  blended_score : Option ℚ := none
deriving DecidableEq

/-- Sparse embedding `{indices, values}` returned by the embedding provider. -/
structure SparseVec where
  indices : List Nat
  values : List ℚ
deriving DecidableEq

/-- Metadata of one Pinecone match; every field is `meta.get(...)`, hence an
`Option`. -/
structure MatchMeta where
  doc_id : Option String
  file_name : Option String
  file_path : Option String
  modified : Option String
deriving DecidableEq

/-- One Pinecone match. -/
structure PineMatch where
  score : ℚ
  metadata : MatchMeta
deriving DecidableEq

/-- The external collaborators (spec §6), as response functions: dense/sparse
embedding generation, the vector index query (dense vector, optional sparse
vector, `top_k`), the blob store, and the cross-encoder batch scorer. -/
structure Env where
  dense : String → Option (List ℚ)
  sparse : String → Option SparseVec
  indexQuery : List ℚ → Option SparseVec → Int → List PineMatch
  blob : String → Option String
  cross : List (String × String) → List ℚ

/-- Python `l[:k]` for an `int` `k` (negative `k` drops `-k` elements from the
end). -/
def pyTake (k : Int) (l : List α) : List α :=
  if 0 ≤ k then l.take k.toNat
  else l.take ((l.length : Int) + k).toNat

/-! ## Hybrid Retriever (`_perform_search` loop, source lines 183-242) -/

/-- Build the `Candidate` dictionary inserted at lines 235-242. -/
def mkCandidate (m : PineMatch) (variant : String) (full_text : String) : DocInfo :=
  { file_name := m.metadata.file_name.getD "Unknown"
    file_path := m.metadata.file_path.getD "Unknown"
    modified := m.metadata.modified.getD "Unknown"
    score := m.score
    full_text := full_text
    source_query := variant }

/-- The body of the match loop of lines 223-242 for one match: read `doc_id`
from the metadata; if it is present, non-empty (Python truthiness) and not
already a key of the pool, fetch the blob; insert only when the blob yields
non-empty text. -/
def insertOneMatch (env : Env) (variant : String)
    (pool : List (String × DocInfo)) (m : PineMatch) : List (String × DocInfo) :=
  match m.metadata.doc_id with
  | none => pool
  | some did =>
    if did = "" then pool
    else if (pool.lookup did).isSome then pool
    else
      match env.blob did with
      | none => pool
      | some t => if t = "" then pool else pool ++ [(did, mkCandidate m variant t)]

/-- The match loop of lines 223-242 (`for match in results.matches`). -/
def insertMatches (env : Env) (variant : String)
    (pool : List (String × DocInfo)) (ms : List PineMatch) : List (String × DocInfo) :=
  ms.foldl (insertOneMatch env variant) pool

/-- The sparse vector is attached only when it was generated and has a
non-empty `values` list (lines 213-218). -/
def sparseArg (sp : Option SparseVec) : Option SparseVec :=
  match sp with
  | some s => if s.values ≠ [] then some s else none
  | none => none

/-- One iteration of the variation loop (lines 187-242): a failed dense
embedding skips the variation; otherwise query the index (hybrid when a
non-empty sparse vector exists) and merge the matches into the pool. -/
def retrieveVariation (env : Env) (fetch : Int)
    (pool : List (String × DocInfo)) (variant : String) : List (String × DocInfo) :=
  match env.dense variant with
  | none => pool
  | some emb => insertMatches env variant pool (env.indexQuery emb (sparseArg (env.sparse variant)) fetch)

/-- The whole retrieval phase: the first 3 variations, in order, folded into
one pool (line 187: `for query_variant in query_variations[:3]`). -/
def retrievePool (env : Env) (variations : List String) (fetch : Int) : List (String × DocInfo) :=
  (variations.take 3).foldl (retrieveVariation env fetch) []

/-! ## Reranker (`rerank_results`, source lines 123-163) -/

/-- The scoring pairs of lines 133-138: `[query, full_text[:1000]]` for every
pool entry, in pool iteration order. -/
def rerankPairs (query : String) (pool : List (String × DocInfo)) : List (String × String) :=
  pool.map fun x => (query, x.2.full_text.take 1000)

/-- The score-blending update of lines 150-155 applied to one dictionary:
normalise the raw logit via `(score + 10) / 20` (no clamping) and blend 50/50
with the retrieval score; the three keys are added to the same dictionary. -/
def applyRerankScores (d : DocInfo) (raw : ℚ) : DocInfo :=
  { d with
    original_score := some d.score
    rerank_score := some raw
    blended_score := some ((d.score + (raw + 10) / 20) / 2) }

/-- The `reranked` list of lines 145-157, before sorting: pool entries zipped
with the cross-encoder scores (`zip` truncates, exactly as Python's does),
each dictionary updated in place. -/
def rerankPre (env : Env) (query : String) (pool : List (String × DocInfo)) :
    List (String × DocInfo) :=
  (pool.zip (env.cross (rerankPairs query pool))).map fun x => (x.1.1, applyRerankScores x.1.2 x.2)

/-- Sort key of line 160: `x[1]['blended_score']` (always present on reranked
entries; `getD` only totalises the lookup). -/
def blendedKey (x : String × DocInfo) : ℚ :=
  x.2.blended_score.getD 0

/-- Stable insertion for a descending sort: `x` goes before the first element
whose key is at most `key x`, hence after no earlier-listed equal element. -/
def insertDesc (x : String × DocInfo) : List (String × DocInfo) → List (String × DocInfo)
  | [] => [x]
  | y :: ys => if blendedKey y ≤ blendedKey x then x :: y :: ys else y :: insertDesc x ys

/-- Python `list.sort(key=..., reverse=True)` is a stable descending sort;
any stable descending sort is extensionally equal, and insertion sort is the
simplest one. -/
def sortDesc : List (String × DocInfo) → List (String × DocInfo)
  | [] => []
  | x :: xs => insertDesc x (sortDesc xs)

/-- `rerank_results` (lines 123-163).  Python mutates the pool's dictionaries
in place and returns a list of `(doc_id, dict)` tuples aliasing them; the pure
embedding passes the state explicitly: the first component is the pool as the
caller observes it after the call (same keys, same order, dictionaries
updated), the second is the returned reranked list. -/
def rerank_results (env : Env) (query : String) (pool : List (String × DocInfo)) :
    List (String × DocInfo) × List (String × DocInfo) :=
  if pool.isEmpty then (pool, [])
  else
    let reranked := rerankPre env query pool
    (reranked ++ pool.drop reranked.length, sortDesc reranked)

/-! ## `_perform_search` (source lines 165-254) -/

/-- `_perform_search`: preprocess, generate variations, retrieve over the
first 3 variations with `fetch_count = min(top_k * 4, 20)`, rerank against the
original query, and keep `reranked_results[:top_k]`.  `top_k` is an arbitrary
Python `int`: no clamping happens anywhere in the function. -/
def perform_search (env : Env) (original_query : String) (top_k : Int) :
    List (String × DocInfo) :=
  let enhanced_query := preprocess_query original_query
  let query_variations := generate_query_variations enhanced_query
  let fetch_count := min (top_k * 4) 20
  let all_doc_results := retrievePool env query_variations fetch_count
  if all_doc_results.isEmpty then []
  else pyTake top_k (rerank_results env original_query all_doc_results).2

/-! ## Result Formatter / Budgeter (`search_onedrive` branch, lines 413-475)

The string literals below spell out, as `\u` escapes, the exact code points
the source file contains (its emoji were mangled to multi-character mojibake
before commit; Python reads those code points as-is, and lengths must match).
-/

/-- Python `f"{n:,}"`: decimal digits of `n` in groups of three.  The helper
works on the reversed digit list. -/
def groupRev : List Char → List Char
  | a :: b :: c :: d :: rest => a :: b :: c :: ',' :: groupRev (d :: rest)
  | l => l

/-- Python `f"{n:,}"` for a non-negative count. -/
def intComma (n : Nat) : String :=
  String.mk (groupRev (toString n).data.reverse).reverse

/-- Zero-pad a numeral to `w` digits. -/
def padZeros (w : Nat) (s : String) : String :=
  String.mk (List.replicate (w - s.length) '0') ++ s

/-- Python `f"{x:.3f}"` / `f"{x:.2f}"` on our exact rationals: fixed-point
rendering with `digits` decimals (round half away from zero; Python rounds the
underlying float half-to-even, a difference that can only show in the digits
of scores, which no claim depends on).  Implemented on `num`/`den` directly so
it evaluates in the kernel. -/
def fmtFixed (digits : Nat) (x : ℚ) : String :=
  let p := 10 ^ digits
  let a := (2 * x.num.natAbs * p + x.den) / (2 * x.den)
  let sign := if x.num < 0 then "-" else ""
  sign ++ toString (a / p) ++ "." ++ padZeros digits (toString (a % p))

/-- Header of the search rendering (lines 430-431); `n` is
`len(reranked_results)`. -/
def searchHeader (original_query : String) (n : Nat) : String :=
  "ğŸ” Found " ++ toString n ++ " results for: '" ++ original_query ++ "'\n"
    ++ "ğŸ§  Searched with AI reranking\n\n"

/-- Per-document preview (lines 443-450): texts longer than 2000 characters
are cut at 2000 and get an explicit truncation marker. -/
def previewText (docId : String) (full_text : String) : String :=
  if full_text.length > 2000 then
    full_text.take 2000 ++ "\n\n... [Truncated: " ++ intComma (full_text.length - 2000)
      ++ " more characters. Call read_document with doc_id=" ++ docId ++ " for full text]"
  else full_text

/-- One formatted result block (lines 452-465); `i` is the 1-based result
number. -/
def resultBlock (i : Nat) (docId : String) (d : DocInfo) : String :=
  "**Result " ++ toString i ++ "** - Relevance Score: " ++ fmtFixed 3 (d.blended_score.getD 0)
    ++ " (Vector: " ++ fmtFixed 3 (d.original_score.getD 0)
    ++ ", Rerank: " ++ fmtFixed 2 (d.rerank_score.getD 0) ++ ")\n"
    ++ "ğŸ”‘ **DOC_ID: " ++ docId ++ "** (use this exact ID for read_document)\n"
    ++ "ğŸ“„ **File:** " ++ d.file_name ++ "\n"
    ++ "ğŸ“ **Path:** " ++ d.file_path ++ "\n"
    ++ "ğŸ“… **Modified:** " ++ d.modified ++ "\n"
    ++ "ğŸ“Š **Size:** " ++ intComma d.full_text.length ++ " characters\n"
    ++ "ğŸ“ **Preview:**\n" ++ previewText docId d.full_text ++ "\n\n"
    ++ "---\n\n"

/-- The size-limit notice of line 469. -/
def omitNotice : String :=
  "\nâš ï¸ **Remaining results omitted** (response size limit reached)\n"

/-- The accumulation loop of lines 437-473: `current_size` starts at
`len(output)` and tracks it exactly; a block is appended only when doing so
keeps `current_size` within `MAX_TOTAL_SIZE = 900_000`, otherwise the notice
is appended (uncounted) and the loop breaks. -/
def formatLoop (i : Nat) (output : String) (current_size : Nat) :
    List (String × DocInfo) → String
  | [] => output
  | (docId, d) :: rest =>
    let result_block := resultBlock i docId d
    if current_size + result_block.length > 900000 then output ++ omitNotice
    else formatLoop (i + 1) (output ++ result_block) (current_size + result_block.length) rest

/-- The search formatter applied to a (non-empty) ranked result sequence
(lines 429-475). -/
def searchFormat (original_query : String) (rs : List (String × DocInfo)) : String :=
  let output := searchHeader original_query rs.length
  formatLoop 1 output output.length rs

/-- The no-match message of lines 419-427. -/
def noMatchMsg (original_query : String) : String :=
  "âŒ No matching documents found for: '" ++ original_query ++ "'\n\n"
    ++ "ğŸ’¡ Try:\n"
    ++ "- Using different keywords\n"
    ++ "- Being more specific\n"
    ++ "- Using the 'suggest_queries' tool for better query ideas"

/-- The complete `search_onedrive` tool branch (lines 413-475); the returned
string is the `text` of the single `TextContent` reply. -/
def search_onedrive (env : Env) (query : String) (top_k : Int) : String :=
  let reranked_results := perform_search env query top_k
  if reranked_results.isEmpty then noMatchMsg query
  else searchFormat query reranked_results

/-! ## `read_document` (lines 507-529) -/

/-- The not-found reply of lines 515-519. -/
def notFoundMsg (docId : String) : String :=
  "âŒ Document not found: " ++ docId
    ++ "\n\nThe document may have been deleted or the doc_id may be incorrect."

/-- The found reply of lines 521-526. -/
def readDocRender (docId full_text : String) : String :=
  "ğŸ“„ **Document ID:** " ++ docId ++ "\n"
    ++ "ğŸ“Š **Size:** " ++ intComma full_text.length ++ " characters\n\n"
    ++ "**Full Text:**\n" ++ full_text

/-- The `read_document` tool branch: a blob miss (`None`) yields the
structured not-found text; a hit yields the full text rendering.  The
function is total: no exception escapes. -/
def read_document (env : Env) (docId : String) : String :=
  match env.blob docId with
  | none => notFoundMsg docId
  | some full_text => readDocRender docId full_text

/-! ## Auxiliary definitions used by the theorems below -/

/-- The total expansion text appended by `expandStage`, as a function of the
lower-cased original query only (used to state that rule matching reads the
pre-expansion query). -/
def expansionSuffix (ql : String) : String :=
  (if anyKeyword ql tax_keywords then " tax document IRS form fiscal year" else "")
    ++ (if anyKeyword ql financial_keywords then " financial accounting expense" else "")
    ++ (if anyKeyword ql meeting_keywords then " meeting notes discussion agenda" else "")
    ++ (if anyKeyword ql project_keywords then " project plan proposal strategy" else "")
    ++ (if anyKeyword ql report_keywords then " report analysis summary data" else "")

/-- `doc_id` appeared among the vector-index results for variation `v` (a
variation whose dense embedding fails is skipped and surfaces nothing). -/
def surfaced (env : Env) (fetch : Int) (v : String) (did : String) : Bool :=
  match env.dense v with
  | none => false
  | some emb =>
    (env.indexQuery emb (sparseArg (env.sparse v)) fetch).any
      fun m => m.metadata.doc_id == some did

/-- The blob store holds non-empty text for `did`. -/
def blobGood (env : Env) (did : String) : Prop :=
  ∃ t, env.blob did = some t ∧ t ≠ ""

/-- Concrete candidate dictionaries used by witnesses. -/
def dW1 : DocInfo :=
  { file_name := "a.txt", file_path := "/a", modified := "2024-01-01",
    score := 0, full_text := "alpha", source_query := "v" }

def dW2 : DocInfo :=
  { file_name := "b.txt", file_path := "/b", modified := "2024-01-02",
    score := 0, full_text := "beta", source_query := "v" }

def poolW1 : List (String × DocInfo) := [("docA", dW1)]

def poolW2 : List (String × DocInfo) := [("docA", dW1), ("docB", dW2)]

/-- Witness environment whose cross-encoder returns logit 0 for every pair. -/
def envW : Env where
  dense := fun _ => none
  sparse := fun _ => none
  indexQuery := fun _ _ _ => []
  blob := fun _ => none
  cross := fun ps => ps.map fun _ => 0

/-- The reranked entry produced from `poolW1` under `envW`. -/
def entryW : String × DocInfo := ("docA", applyRerankScores dW1 0)

/-- One concrete Pinecone match used by the `top_k` environments. -/
def mC2 : PineMatch := { score := 1, metadata := ⟨some "d1", some "f", some "p", some "m"⟩ }

/-- Environment for the `top_k` counterexample: one document, returned by the
index whenever it is asked for at least one result. -/
def envC2 : Env where
  dense := fun _ => some [1]
  sparse := fun _ => none
  indexQuery := fun _ _ k => if 1 ≤ k then [mC2] else []
  blob := fun d => if d = "d1" then some "text one" else none
  cross := fun ps => ps.map fun _ => 0

/-- A match surfacing document id `"X"`, used by the retriever witness. -/
def mC4 : PineMatch := { score := 1, metadata := ⟨some "X", some "fx", some "px", some "mx"⟩ }

/-- Environment for the retriever witness: every variation surfaces `"X"`. -/
def envC4 : Env where
  dense := fun _ => some [1]
  sparse := fun _ => none
  indexQuery := fun _ _ _ => [mC4]
  blob := fun d => if d = "X" then some "textX" else none
  cross := fun ps => ps.map fun _ => 0

/-- Collaborator environment used by the `read_document` witness: the blob
store holds exactly one document. -/
def envC8 : Env where
  dense := fun _ => none
  sparse := fun _ => none
  indexQuery := fun _ _ _ => []
  blob := fun d => if d = "doc1" then some "hello world" else none
  cross := fun _ => []

/-- Concatenation of a list of formatted blocks (the formatter appends them
one by one). -/
def concatBlocks : List String → String
  | [] => ""
  | b :: bs => b ++ concatBlocks bs

/-- Total length of a list of blocks. -/
def totalLen : List String → Nat
  | [] => 0
  | b :: bs => b.length + totalLen bs

/-- The result blocks of a ranked sequence, numbered from `i`. -/
def blocksFrom (i : Nat) : List (String × DocInfo) → List String
  | [] => []
  | (docId, d) :: rest => resultBlock i docId d :: blocksFrom (i + 1) rest

/-- A minimal reranked candidate used to measure the formatter's fixed
per-block overhead. -/
def c1BaseDoc : DocInfo :=
  { file_name := "", file_path := "p", modified := "m", score := 0,
    full_text := "z", source_query := "v",
    original_score := some 0, rerank_score := some 0, blended_score := some 0 }

/-- Header length of the concrete counterexample rendering. -/
def c1HeaderLen : Nat := (searchHeader "q" 2).length

/-- Length of one result block with an empty file name. -/
def c1Overhead : Nat := (resultBlock 1 "d1" c1BaseDoc).length

/-- First counterexample candidate: its file name is sized so that the header
plus its block come to exactly 900000 characters. -/
def c1Doc1 : DocInfo :=
  { c1BaseDoc with
    file_name := String.mk (List.replicate (900000 - c1HeaderLen - c1Overhead) 'a') }

/-- Second counterexample candidate (any non-trivial block). -/
def c1Doc2 : DocInfo := { c1BaseDoc with file_name := "b" }

/-- The ranked sequence of the size-ceiling counterexample. -/
def c1Results : List (String × DocInfo) := [("d1", c1Doc1), ("d2", c1Doc2)]

/-- The oversized file name of the first counterexample candidate. -/
def bigName : String := String.mk (List.replicate (900000 - c1HeaderLen - c1Overhead) 'a')

/-! # Theorems

First the generic helper lemmas about the string machinery, then one theorem
(plus witness / counterexample where required) per claim. -/

/-- Every token produced by `pySplitTokens` is non-empty and free of
whitespace. -/
theorem pySplitTokens_wf : ∀ l : List Char, ∀ t ∈ pySplitTokens l,
    t ≠ [] ∧ ∀ c ∈ t, pyIsSpace c = false := by
  intro l
  induction l using pySplitTokens.induct with
  | case1 => intro t ht; simp [pySplitTokens] at ht
  | case2 c cs hc ih =>
    intro t ht
    rw [show pySplitTokens (c :: cs) = pySplitTokens cs by
      rw [pySplitTokens.eq_def]; simp [hc]] at ht
    exact ih t ht
  | case3 c hc =>
    intro t ht
    rw [show pySplitTokens [c] = [[c]] by rw [pySplitTokens.eq_def]; simp [hc]] at ht
    simp at ht; subst ht
    exact ⟨by simp, by intro x hx; simp at hx; subst hx; simpa using hc⟩
  | case4 c hc d ds hd ih =>
    intro t ht
    rw [show pySplitTokens (c :: d :: ds) = [c] :: pySplitTokens (d :: ds) by
      rw [pySplitTokens.eq_def]; simp [hc, hd]] at ht
    rcases List.mem_cons.mp ht with h1 | h2
    · subst h1
      exact ⟨by simp, by intro x hx; simp at hx; subst hx; simpa using hc⟩
    · exact ih t h2
  | case5 c hc d ds hd t0 ts hsp ih =>
    intro t ht
    rw [show pySplitTokens (c :: d :: ds) = (c :: t0) :: ts by
      rw [pySplitTokens.eq_def]; simp [hc, hd]; rw [hsp]] at ht
    rcases List.mem_cons.mp ht with h1 | h2
    · subst h1
      have h0 := ih t0 (by rw [hsp]; exact List.mem_cons_self _ _)
      refine ⟨by simp, ?_⟩
      intro x hx
      rcases List.mem_cons.mp hx with rfl | hx2
      · simpa using hc
      · exact h0.2 x hx2
    · exact ih t (by rw [hsp]; exact List.mem_cons_of_mem _ h2)
  | case6 c hc d ds hd hsp ih =>
    intro t ht
    rw [show pySplitTokens (c :: d :: ds) = [[c]] by
      rw [pySplitTokens.eq_def]; simp [hc, hd]; rw [hsp]] at ht
    simp at ht; subst ht
    exact ⟨by simp, by intro x hx; simp at hx; subst hx; simpa using hc⟩

/-- Joining non-empty tokens yields a non-empty string. -/
theorem joinTokens_ne_nil : ∀ ts : List (List Char), ts ≠ [] → (∀ t ∈ ts, t ≠ []) →
    joinTokens ts ≠ [] := by
  intro ts
  match ts with
  | [] => intro h; exact absurd rfl h
  | [t] => intro _ h; simpa [joinTokens] using h t (by simp)
  | t :: u :: us =>
    intro _ h
    rw [show joinTokens (t :: u :: us) = t ++ ' ' :: joinTokens (u :: us) from rfl]
    have ht := h t (by simp)
    cases t with
    | nil => exact absurd rfl ht
    | cons a as => simp

/-- The first character of a token join comes from some token. -/
theorem joinTokens_head (ts : List (List Char)) (hne : ∀ t ∈ ts, t ≠ []) :
    ∀ c, (joinTokens ts).head? = some c → ∃ t ∈ ts, c ∈ t := by
  match ts with
  | [] => intro c h; simp [joinTokens] at h
  | [t] =>
    intro c h; rw [show joinTokens [t] = t from rfl] at h
    exact ⟨t, by simp, List.mem_of_mem_head? h⟩
  | t :: u :: us =>
    intro c h
    rw [show joinTokens (t :: u :: us) = t ++ ' ' :: joinTokens (u :: us) from rfl,
      List.head?_append] at h
    cases ht : t.head? with
    | some a =>
      rw [ht] at h; simp at h; subst h
      exact ⟨t, by simp, List.mem_of_mem_head? ht⟩
    | none =>
      exact absurd (List.head?_eq_none_iff.mp ht) (hne t (by simp))

/-- The last character of a token join comes from some token. -/
theorem joinTokens_getLast : ∀ ts : List (List Char), (∀ t ∈ ts, t ≠ []) →
    ∀ c, (joinTokens ts).getLast? = some c → ∃ t ∈ ts, c ∈ t := by
  intro ts
  induction ts using joinTokens.induct with
  | case1 => intro _ c h; simp [joinTokens] at h
  | case2 t =>
    intro hne c h; rw [show joinTokens [t] = t from rfl] at h
    exact ⟨t, by simp, List.mem_of_getLast?_eq_some h⟩
  | case3 t ts hts ih =>
    intro hne c h
    have htsne : ts ≠ [] := fun hh => hts hh
    rcases List.exists_cons_of_ne_nil htsne with ⟨u, us, rfl⟩
    rw [show joinTokens (t :: u :: us) = t ++ ' ' :: joinTokens (u :: us) from rfl,
      List.getLast?_append] at h
    have hj : joinTokens (u :: us) ≠ [] :=
      joinTokens_ne_nil _ (by simp) (fun x hx => hne x (List.mem_cons_of_mem _ hx))
    rcases List.exists_cons_of_ne_nil hj with ⟨b, L, hb⟩
    rw [hb, List.getLast?_cons_cons] at h
    cases hbl : (b :: L).getLast? with
    | none => simp at hbl
    | some a =>
      rw [hbl] at h; simp at h; subst h
      have hmem : (joinTokens (u :: us)).getLast? = some a := by rw [hb]; exact hbl
      rcases ih (fun x hx => hne x (List.mem_cons_of_mem _ hx)) a hmem with ⟨t2, ht2, hct⟩
      exact ⟨t2, List.mem_cons_of_mem _ ht2, hct⟩

/-- `str.strip()` is the identity on strings whose two ends are not
whitespace. -/
theorem stripChars_eq_self (l : List Char)
    (h1 : ∀ c, l.head? = some c → pyIsSpace c = false)
    (h2 : ∀ c, l.getLast? = some c → pyIsSpace c = false) :
    pyStripChars l = l := by
  unfold pyStripChars
  cases l with
  | nil => rfl
  | cons c cs =>
    rw [List.dropWhile_cons]
    rw [h1 c rfl]
    simp only [Bool.false_eq_true, if_false]
    have hr : (c :: cs).reverse ≠ [] := by simp
    rcases List.exists_cons_of_ne_nil hr with ⟨d, ds, hd⟩
    have hdl : (c :: cs).getLast? = some d := by
      rw [← List.head?_reverse, hd]; rfl
    rw [hd, List.dropWhile_cons, h2 d hdl]
    simp only [Bool.false_eq_true, if_false]
    rw [← hd, List.reverse_reverse]

/-- `' '.join(s.split())` is already stripped: `preprocess_query`'s output is
a fixed point of `str.strip()`. -/
theorem wsNormalize_strip (s : String) : pyStrip (wsNormalize s) = wsNormalize s := by
  unfold pyStrip wsNormalize
  have hwf := pySplitTokens_wf s.data
  have hne : ∀ t ∈ pySplitTokens s.data, t ≠ [] := fun t ht => (hwf t ht).1
  congr 1
  apply stripChars_eq_self
  · intro c hc
    rcases joinTokens_head _ hne c hc with ⟨t, ht, hct⟩
    exact (hwf t ht).2 c hct
  · intro c hc
    rcases joinTokens_getLast _ hne c hc with ⟨t, ht, hct⟩
    exact (hwf t ht).2 c hct

/-- For inputs that are fixed points of `strip` (in particular every
whitespace-normalised rewriter output), the variation list starts with the
input itself. -/
theorem variations_head_of_strip (s : String) (hs : pyStrip s = s) (hne : s ≠ "") :
    (generate_query_variations s).head? = some s := by
  simp only [generate_query_variations]
  split <;> split <;> simp [dedupTrim, hs, hne]

/-- C3 counterexample: `generate_query_variations ""` is empty, so the claimed
"length at least 1 for every input string (including the empty string)" fails
at the explicit input `""` (the dedup loop of lines 111-117 drops empty
strings, and every candidate built from `""` is empty). -/
theorem C3_counterexample : ¬ (1 ≤ (generate_query_variations "").length) := by decide

/-- C3 (amended): for every input that is stripped (no surrounding
whitespace) and non-empty, `generate_query_variations` returns a sequence
whose element 0 is the input verbatim (hence length ≥ 1); consequently
`variations(rewrite(q))[0] = rewrite(q)` for every query `q` whose rewritten
form is non-empty, since `preprocess_query` output is whitespace-normalised.
The original claim fails only for inputs that strip to the empty string
(then the result is empty, see the counterexample). -/
theorem C3_amended_variations_head :
    (∀ s : String, pyStrip s = s → s ≠ "" → (generate_query_variations s).head? = some s)
    ∧ (∀ q : String, preprocess_query q ≠ "" →
        (generate_query_variations (preprocess_query q)).head? = some (preprocess_query q)) := by
  constructor
  · exact variations_head_of_strip
  · intro q hq
    exact variations_head_of_strip _ (by unfold preprocess_query; exact wsNormalize_strip _) hq

/-- C3 witness: the amended theorem applied at the concrete inputs
`"tax forms"` and `"hello"`. -/
theorem C3_witness :
    (pyStrip "tax forms" = "tax forms" ∧ "tax forms" ≠ "" ∧
      (generate_query_variations "tax forms").head? = some "tax forms")
    ∧ (preprocess_query "hello" ≠ "" ∧
      (generate_query_variations (preprocess_query "hello")).head? = some (preprocess_query "hello")) :=
  ⟨⟨by decide, by decide, C3_amended_variations_head.1 "tax forms" (by decide) (by decide)⟩,
   ⟨by decide, C3_amended_variations_head.2 "hello" (by decide)⟩⟩

/-- C6: reranking an empty pool returns an empty sequence, and the result does
not depend on the environment at all — in particular the cross-encoder
collaborator is not consulted (the guard of lines 128-129 returns before any
scoring). -/
theorem C6_rerank_empty : ∀ (env env2 : Env) (q : String),
    (rerank_results env q []).2 = [] ∧ rerank_results env q [] = rerank_results env2 q [] := by
  intro env env2 q
  exact ⟨rfl, rfl⟩

/-- C9: trigger matching in `preprocess_query` is substring containment on the
lower-cased query: the expansion stage always equals the original query
followed by `expansionSuffix (pyLower q)`, a function of the lower-cased
*original* query alone (computed once, so text appended by earlier rules can
never trigger later rules); and the concrete evaluations show that
`"syntax"` (which contains `"tax"` only inside a longer word) and
`"fiscally"` (containing `"fiscal"`) do receive the tax expansion. -/
theorem C9_substring_triggers :
    (∀ q : String, expandStage q = q ++ expansionSuffix (pyLower q))
    ∧ preprocess_query "syntax" = "syntax tax document IRS form fiscal year"
    ∧ preprocess_query "fiscally" = "fiscally tax document IRS form fiscal year" := by
  refine ⟨?_, by decide, by decide⟩
  intro q
  simp only [expandStage, expansionSuffix]
  split_ifs <;> simp [String.append_assoc]

/-- C8: `read_document` never lets an exception escape (it is a total
function of the blob response): a blob miss yields exactly the structured
not-found text, and a blob hit yields a rendering that carries the full
document text verbatim as its suffix. -/
theorem C8_read_document (env : Env) (docId : String) :
    (env.blob docId = none → read_document env docId = notFoundMsg docId)
    ∧ (∀ t, env.blob docId = some t → ∃ p, read_document env docId = p ++ t) := by
  constructor
  · intro h; simp [read_document, h]
  · intro t h
    simp only [read_document, h]
    exact ⟨_, rfl⟩

/-- C8 witness: the theorem applied to a concrete blob store with one
document (`"doc1"`), once for a missing id and once for the held id. -/
theorem C8_witness :
    (envC8.blob "missing" = none ∧ read_document envC8 "missing" = notFoundMsg "missing")
    ∧ (envC8.blob "doc1" = some "hello world"
        ∧ ∃ p, read_document envC8 "doc1" = p ++ "hello world") :=
  ⟨⟨by decide, (C8_read_document envC8 "missing").1 (by decide)⟩,
   ⟨by decide, (C8_read_document envC8 "doc1").2 "hello world" (by decide)⟩⟩
theorem lookup_none_iff (did : String) (pool : List (String × DocInfo)) :
    pool.lookup did = none ↔ did ∉ pool.map Prod.fst := by
  induction pool with
  | nil => simp
  | cons a as ih =>
    rw [List.lookup]
    by_cases h : did = a.1
    · subst h; simp
    · have hb : (did == a.1) = false := by simpa using h
      rw [hb]
      simp only [List.map_cons, List.mem_cons, ih]
      constructor
      · intro hn hc
        rcases hc with hc | hc
        · exact h hc
        · exact hn hc
      · intro hn hc
        exact hn (Or.inr hc)

theorem mem_keys_of_lookup_isSome (did : String) (pool : List (String × DocInfo))
    (h : (pool.lookup did).isSome) : did ∈ pool.map Prod.fst := by
  by_contra hc
  rw [← lookup_none_iff] at hc
  rw [hc] at h
  simp at h

/-- Exhaustive description of one iteration of the match loop: either the pool
is unchanged, or exactly one new candidate is appended, and then `doc_id` was
present, truthy, fresh, and the blob produced non-empty text. -/
theorem insertOneMatch_cases (env : Env) (v : String)
    (pool : List (String × DocInfo)) (m : PineMatch) :
    insertOneMatch env v pool m = pool
    ∨ ∃ did t, m.metadata.doc_id = some did ∧ did ≠ "" ∧ pool.lookup did = none
        ∧ env.blob did = some t ∧ t ≠ ""
        ∧ insertOneMatch env v pool m = pool ++ [(did, mkCandidate m v t)] := by
  unfold insertOneMatch
  rcases hid : m.metadata.doc_id with _ | did
  · left; rfl
  · dsimp only
    by_cases h1 : did = ""
    · left; simp [h1]
    · rw [if_neg h1]
      by_cases h2 : (pool.lookup did).isSome
      · left; simp [h2]
      · rw [if_neg h2]
        rcases hb : env.blob did with _ | t
        · left; rfl
        · by_cases h3 : t = ""
          · left; dsimp only; simp [h3]
          · right
            exact ⟨did, t, rfl, h1, Option.not_isSome_iff_eq_none.mp h2, hb, h3,
              by dsimp only; rw [if_neg h3]⟩

/-- Keys are monotone along the match loop. -/
theorem insertOneMatch_keys_mono (env : Env) (v : String)
    (pool : List (String × DocInfo)) (m : PineMatch) (did : String)
    (h : did ∈ pool.map Prod.fst) :
    did ∈ (insertOneMatch env v pool m).map Prod.fst := by
  rcases insertOneMatch_cases env v pool m with he | ⟨d2, t, _, _, _, _, _, he⟩ <;>
    rw [he]
  · exact h
  · rw [List.map_append]
    exact List.mem_append.mpr (Or.inl h)

theorem insertMatches_keys_mono (env : Env) (v : String) :
    ∀ (ms : List PineMatch) (pool : List (String × DocInfo)) (did : String),
      did ∈ pool.map Prod.fst → did ∈ (insertMatches env v pool ms).map Prod.fst := by
  intro ms
  induction ms with
  | nil => intro pool did h; exact h
  | cons m ms ih =>
    intro pool did h
    exact ih _ did (insertOneMatch_keys_mono env v pool m did h)

/-- Structure of the pool after a whole match loop: the input pool is a
verbatim prefix, keys stay duplicate-free, and every appended candidate was
fresh, carries this variation as source, a truthy id, non-empty blob text. -/
theorem insertMatches_spec (env : Env) (v : String) :
    ∀ (ms : List PineMatch) (pool : List (String × DocInfo)),
      (pool.map Prod.fst).Nodup →
      ∃ ext, insertMatches env v pool ms = pool ++ ext
        ∧ (((pool ++ ext).map Prod.fst).Nodup)
        ∧ ∀ p ∈ ext, p.2.source_query = v ∧ p.1 ≠ ""
            ∧ p.2.full_text ≠ "" ∧ env.blob p.1 = some p.2.full_text
            ∧ (ms.any fun m => m.metadata.doc_id == some p.1) = true
            ∧ p.1 ∉ pool.map Prod.fst := by
  intro ms
  induction ms with
  | nil =>
    intro pool hnd
    exact ⟨[], by simp [insertMatches], by simpa using hnd, by simp⟩
  | cons m ms ih =>
    intro pool hnd
    have hstep : insertMatches env v pool (m :: ms)
        = insertMatches env v (insertOneMatch env v pool m) ms := by
      simp [insertMatches]
    rcases insertOneMatch_cases env v pool m with he | ⟨did, t, hid, hne, hlk, hb, ht, he⟩
    · rcases ih pool hnd with ⟨ext, heq, hnd2, hprops⟩
      refine ⟨ext, by rw [hstep, he, heq], hnd2, ?_⟩
      intro p hp
      rcases hprops p hp with ⟨h1, h2, h3, h4, h5, h6⟩
      exact ⟨h1, h2, h3, h4, by simp [List.any_cons, h5], h6⟩
    · have hdk : did ∉ pool.map Prod.fst := (lookup_none_iff did pool).mp hlk
      have hnd1 : ((pool ++ [(did, mkCandidate m v t)]).map Prod.fst).Nodup := by
        rw [List.map_append, List.nodup_append]
        exact ⟨hnd, by simp, by simpa [List.disjoint_singleton] using hdk⟩
      rcases ih (pool ++ [(did, mkCandidate m v t)]) hnd1 with ⟨ext, heq, hnd2, hprops⟩
      refine ⟨(did, mkCandidate m v t) :: ext, ?_, ?_, ?_⟩
      · rw [hstep, he, heq]; simp
      · rw [show pool ++ (did, mkCandidate m v t) :: ext
            = (pool ++ [(did, mkCandidate m v t)]) ++ ext by simp]
        exact hnd2
      · intro p hp
        rcases List.mem_cons.mp hp with rfl | hp2
        · exact ⟨rfl, hne, ht, by simpa [mkCandidate] using hb,
            by simp [List.any_cons, hid], hdk⟩
        · rcases hprops p hp2 with ⟨h1, h2, h3, h4, h5, h6⟩
          refine ⟨h1, h2, h3, h4, by simp [List.any_cons, h5], ?_⟩
          intro hc
          rw [List.map_append] at h6
          exact h6 (List.mem_append.mpr (Or.inl hc))

/-- Completeness of the match loop: any truthy id that appears among the
matches and has good blob text ends up in the pool. -/
theorem insertMatches_complete (env : Env) (v : String) :
    ∀ (ms : List PineMatch) (pool : List (String × DocInfo)) (did : String),
      did ≠ "" → blobGood env did →
      ((ms.any fun m => m.metadata.doc_id == some did) = true ∨ did ∈ pool.map Prod.fst) →
      did ∈ (insertMatches env v pool ms).map Prod.fst := by
  intro ms
  induction ms with
  | nil =>
    intro pool did _ _ h
    rcases h with h | h
    · simp at h
    · simpa [insertMatches] using h
  | cons m ms ih =>
    intro pool did hne hbg h
    have hstep : insertMatches env v pool (m :: ms)
        = insertMatches env v (insertOneMatch env v pool m) ms := by
      simp [insertMatches]
    rw [hstep]
    have hin : (ms.any fun x => x.metadata.doc_id == some did) = true
        ∨ did ∈ (insertOneMatch env v pool m).map Prod.fst → _ := ih (insertOneMatch env v pool m) did hne hbg
    apply ih _ did hne hbg
    rcases h with h | hin2
    · rw [List.any_cons] at h
      rcases Bool.or_eq_true_iff.mp h with hm | hms
      · -- head match carries did: did lands in the pool after this step
        right
        have hid : m.metadata.doc_id = some did := by simpa using hm
        rcases insertOneMatch_cases env v pool m with he | ⟨d2, t2, hid2, hne2, hlk2, hb2, ht2, he⟩
        · -- unchanged: then did must already be a key (otherwise the loop
          -- body would have inserted it)
          rw [he]
          by_contra hc
          have hlkn : pool.lookup did = none := (lookup_none_iff did pool).mpr hc
          rcases hbg with ⟨t, hb, ht⟩
          -- but then insertOneMatch must have inserted: contradiction with he
          have : insertOneMatch env v pool m = pool ++ [(did, mkCandidate m v t)] := by
            unfold insertOneMatch
            rw [hid]
            dsimp only
            rw [if_neg hne, if_neg (by simp [hlkn]), hb]
            dsimp only
            rw [if_neg ht]
          rw [this] at he
          have := congrArg List.length he
          simp at this
        · rw [hid2] at hid
          have : d2 = did := by simpa using hid
          subst this
          rw [he, List.map_append]
          exact List.mem_append.mpr (Or.inr (by simp))
      · left; exact hms
    · right
      exact insertOneMatch_keys_mono env v pool m did hin2

/-- The four-part invariant carried through the variation loop: unique keys;
every candidate has non-empty blob-backed text and truthy id; every
candidate's `source_query` is the first processed variation that surfaced its
id; completeness (every truthy, blob-good id surfaced by a processed
variation is in the pool). -/
theorem retrieveVariation_step (env : Env) (fetch : Int)
    (processed : List String) (pool : List (String × DocInfo)) (v : String)
    (h : ((pool.map Prod.fst).Nodup
      ∧ (∀ p ∈ pool, p.2.full_text ≠ "" ∧ env.blob p.1 = some p.2.full_text ∧ p.1 ≠ "")
      ∧ (∀ p ∈ pool, ∃ pre post, processed = pre ++ p.2.source_query :: post
          ∧ surfaced env fetch p.2.source_query p.1 = true
          ∧ ∀ v2 ∈ pre, surfaced env fetch v2 p.1 = false)
      ∧ (∀ did, did ≠ "" → blobGood env did →
          (∃ v2 ∈ processed, surfaced env fetch v2 did = true) →
          did ∈ pool.map Prod.fst))) :
    (((retrieveVariation env fetch pool v).map Prod.fst).Nodup
      ∧ (∀ p ∈ retrieveVariation env fetch pool v,
          p.2.full_text ≠ "" ∧ env.blob p.1 = some p.2.full_text ∧ p.1 ≠ "")
      ∧ (∀ p ∈ retrieveVariation env fetch pool v,
          ∃ pre post, processed ++ [v] = pre ++ p.2.source_query :: post
            ∧ surfaced env fetch p.2.source_query p.1 = true
            ∧ ∀ v2 ∈ pre, surfaced env fetch v2 p.1 = false)
      ∧ (∀ did, did ≠ "" → blobGood env did →
          (∃ v2 ∈ processed ++ [v], surfaced env fetch v2 did = true) →
          did ∈ (retrieveVariation env fetch pool v).map Prod.fst)) := by
  obtain ⟨h1, h2, h3, h4⟩ := h
  rcases hdense : env.dense v with _ | emb
  · -- dense embedding failed: variation skipped, pool unchanged
    have hval : retrieveVariation env fetch pool v = pool := by
      unfold retrieveVariation; rw [hdense]
    rw [hval]
    refine ⟨h1, h2, ?_, ?_⟩
    · intro p hp
      rcases h3 p hp with ⟨pre, post, hsp, hsf, hpre⟩
      exact ⟨pre, post ++ [v], by rw [hsp]; simp, hsf, hpre⟩
    · intro did hne hbg ⟨v2, hv2, hsf⟩
      rcases List.mem_append.mp hv2 with hv2 | hv2
      · exact h4 did hne hbg ⟨v2, hv2, hsf⟩
      · have hvv : v2 = v := by simpa using hv2
        rw [hvv, surfaced, hdense] at hsf
        simp at hsf
  · have hval : retrieveVariation env fetch pool v
        = insertMatches env v pool (env.indexQuery emb (sparseArg (env.sparse v)) fetch) := by
      unfold retrieveVariation; rw [hdense]
    rcases insertMatches_spec env v (env.indexQuery emb (sparseArg (env.sparse v)) fetch)
      pool h1 with ⟨ext, heq, hnd2, hprops⟩
    have hsurf : ∀ p ∈ ext, surfaced env fetch v p.1 = true := by
      intro p hp
      rw [surfaced, hdense]
      exact (hprops p hp).2.2.2.2.1
    rw [hval, heq]
    refine ⟨hnd2, ?_, ?_, ?_⟩
    · intro p hp
      rcases List.mem_append.mp hp with hp | hp
      · exact h2 p hp
      · rcases hprops p hp with ⟨_, hne, hft, hb, _, _⟩
        exact ⟨hft, hb, hne⟩
    · intro p hp
      rcases List.mem_append.mp hp with hp | hp
      · rcases h3 p hp with ⟨pre, post, hsp, hsf, hpre⟩
        exact ⟨pre, post ++ [v], by rw [hsp]; simp, hsf, hpre⟩
      · rcases hprops p hp with ⟨hsrc, hne, hft, hb, hany, hfresh⟩
        refine ⟨processed, [], by rw [hsrc], by rw [hsrc]; exact hsurf p hp, ?_⟩
        intro v2 hv2
        by_contra hc
        have hsf2 : surfaced env fetch v2 p.1 = true := by
          cases hx : surfaced env fetch v2 p.1
          · exact absurd hx hc
          · rfl
        have : p.1 ∈ pool.map Prod.fst :=
          h4 p.1 hne ⟨p.2.full_text, hb, hft⟩ ⟨v2, hv2, hsf2⟩
        exact hfresh this
    · intro did hne hbg ⟨v2, hv2, hsf⟩
      rcases List.mem_append.mp hv2 with hv2 | hv2
      · have : did ∈ pool.map Prod.fst := h4 did hne hbg ⟨v2, hv2, hsf⟩
        rw [← heq]
        exact insertMatches_keys_mono env v _ pool did this
      · have hvv : v2 = v := by simpa using hv2
        rw [hvv, surfaced, hdense] at hsf
        rw [← heq]
        exact insertMatches_complete env v _ pool did hne hbg (Or.inl hsf)

theorem retrievePool_foldl_inv (env : Env) (fetch : Int) :
    ∀ (vs processed : List String) (pool : List (String × DocInfo)),
      (((pool.map Prod.fst).Nodup
        ∧ (∀ p ∈ pool, p.2.full_text ≠ "" ∧ env.blob p.1 = some p.2.full_text ∧ p.1 ≠ "")
        ∧ (∀ p ∈ pool, ∃ pre post, processed = pre ++ p.2.source_query :: post
            ∧ surfaced env fetch p.2.source_query p.1 = true
            ∧ ∀ v2 ∈ pre, surfaced env fetch v2 p.1 = false)
        ∧ (∀ did, did ≠ "" → blobGood env did →
            (∃ v2 ∈ processed, surfaced env fetch v2 did = true) →
            did ∈ pool.map Prod.fst))) →
      let fin := vs.foldl (retrieveVariation env fetch) pool
      ((fin.map Prod.fst).Nodup
        ∧ (∀ p ∈ fin, p.2.full_text ≠ "" ∧ env.blob p.1 = some p.2.full_text ∧ p.1 ≠ "")
        ∧ (∀ p ∈ fin, ∃ pre post, processed ++ vs = pre ++ p.2.source_query :: post
            ∧ surfaced env fetch p.2.source_query p.1 = true
            ∧ ∀ v2 ∈ pre, surfaced env fetch v2 p.1 = false)
        ∧ (∀ did, did ≠ "" → blobGood env did →
            (∃ v2 ∈ processed ++ vs, surfaced env fetch v2 did = true) →
            did ∈ fin.map Prod.fst)) := by
  intro vs
  induction vs with
  | nil =>
    intro processed pool h
    simpa using h
  | cons v vs ih =>
    intro processed pool h
    have hstep := retrieveVariation_step env fetch processed pool v h
    have := ih (processed ++ [v]) (retrieveVariation env fetch pool v) hstep
    simpa [List.foldl_cons, List.append_assoc] using this

/-- C4: for every environment (hence every collaborator response) and every
variation sequence, the retriever pool has pairwise-distinct document ids, no
candidate has empty `full_text` (each one's text is exactly what the blob
store returned), and each candidate's `source_query` is the *first* of the
(at most 3) processed variations that surfaced its id — no later variation
ever overwrites it. -/
theorem C4_pool_first_seen (env : Env) (variations : List String) (fetch : Int) :
    ((retrievePool env variations fetch).map Prod.fst).Nodup
    ∧ (∀ p ∈ retrievePool env variations fetch,
        p.2.full_text ≠ "" ∧ env.blob p.1 = some p.2.full_text)
    ∧ (∀ p ∈ retrievePool env variations fetch,
        ∃ pre post, variations.take 3 = pre ++ p.2.source_query :: post
          ∧ surfaced env fetch p.2.source_query p.1 = true
          ∧ ∀ v ∈ pre, surfaced env fetch v p.1 = false) := by
  have h0 : ((([] : List (String × DocInfo)).map Prod.fst).Nodup
      ∧ (∀ p ∈ ([] : List (String × DocInfo)),
          p.2.full_text ≠ "" ∧ env.blob p.1 = some p.2.full_text ∧ p.1 ≠ "")
      ∧ (∀ p ∈ ([] : List (String × DocInfo)),
          ∃ pre post, ([] : List String) = pre ++ p.2.source_query :: post
            ∧ surfaced env fetch p.2.source_query p.1 = true
            ∧ ∀ v2 ∈ pre, surfaced env fetch v2 p.1 = false)
      ∧ (∀ did, did ≠ "" → blobGood env did →
          (∃ v2 ∈ ([] : List String), surfaced env fetch v2 did = true) →
          did ∈ ([] : List (String × DocInfo)).map Prod.fst)) := by
    refine ⟨by simp, by simp, by simp, ?_⟩
    intro did _ _ ⟨v2, hv2, _⟩
    simp at hv2
  have hmain := retrievePool_foldl_inv env fetch (variations.take 3) [] [] h0
  simp only [List.nil_append] at hmain
  unfold retrievePool
  exact ⟨hmain.1, fun p hp => ⟨(hmain.2.1 p hp).1, (hmain.2.1 p hp).2.1⟩, hmain.2.2.1⟩

theorem mem_insertDesc (x y : String × DocInfo) (l : List (String × DocInfo)) :
    y ∈ insertDesc x l ↔ y = x ∨ y ∈ l := by
  induction l with
  | nil => simp [insertDesc]
  | cons a as ih =>
    rw [insertDesc]
    split
    · simp
    · simp [ih]; tauto

theorem mem_sortDesc (x : String × DocInfo) (l : List (String × DocInfo)) :
    x ∈ sortDesc l ↔ x ∈ l := by
  induction l with
  | nil => simp [sortDesc]
  | cons a as ih => rw [sortDesc, mem_insertDesc, ih]; simp

-- membership in reranked output comes from a zip pair
theorem mem_rerank_output (env : Env) (q : String) (pool : List (String × DocInfo))
    (x : String × DocInfo) (hx : x ∈ (rerank_results env q pool).2) :
    ∃ p r, (p, r) ∈ pool.zip (env.cross (rerankPairs q pool))
      ∧ x = (p.1, applyRerankScores p.2 r) := by
  unfold rerank_results at hx
  split at hx
  · simp at hx
  · rw [mem_sortDesc] at hx
    unfold rerankPre at hx
    rcases List.mem_map.mp hx with ⟨⟨p, r⟩, hmem, rfl⟩
    exact ⟨p, r, hmem, rfl⟩

-- C5
/-- C5: every entry of the reranker's output stores
`original_score = score` (the retrieval score), the raw cross-encoder logit,
and `blended_score = (score + (raw + 10) / 20) / 2` — the normalisation
`(raw + 10) / 20` is applied unclamped, so logits outside `[-10, 10]` yield
normalised values outside `[0, 1]` that enter the blend unchanged. -/
theorem C5_blended_formula (env : Env) (q : String) (pool : List (String × DocInfo))
    (x : String × DocInfo) (hx : x ∈ (rerank_results env q pool).2) :
    x.2.original_score = some x.2.score
    ∧ ∃ raw, x.2.rerank_score = some raw
        ∧ x.2.blended_score = some ((x.2.score + (raw + 10) / 20) / 2) := by
  rcases mem_rerank_output env q pool x hx with ⟨p, r, hmem, rfl⟩
  exact ⟨rfl, r, rfl, rfl⟩

theorem insertDesc_sorted (x : String × DocInfo) (l : List (String × DocInfo))
    (hl : l.Pairwise (fun a b => blendedKey b ≤ blendedKey a)) :
    (insertDesc x l).Pairwise (fun a b => blendedKey b ≤ blendedKey a) := by
  induction l with
  | nil => simp [insertDesc]
  | cons a as ih =>
    rw [insertDesc]
    rcases List.pairwise_cons.mp hl with ⟨ha, has⟩
    split
    · rename_i hax
      refine List.pairwise_cons.mpr ⟨?_, hl⟩
      intro y hy
      rcases List.mem_cons.mp hy with rfl | hy2
      · exact hax
      · exact le_trans (ha y hy2) hax
    · rename_i hax
      refine List.pairwise_cons.mpr ⟨?_, ih has⟩
      intro y hy
      rcases (mem_insertDesc x y as).mp hy with rfl | hy2
      · exact le_of_lt (lt_of_not_le hax)
      · exact ha y hy2

theorem sortDesc_sorted (l : List (String × DocInfo)) :
    (sortDesc l).Pairwise (fun a b => blendedKey b ≤ blendedKey a) := by
  induction l with
  | nil => simp [sortDesc]
  | cons a as ih => exact insertDesc_sorted a (sortDesc as) ih

theorem filter_insertDesc (x : String × DocInfo) (l : List (String × DocInfo)) (c : ℚ) :
    (insertDesc x l).filter (fun e => blendedKey e == c)
      = if blendedKey x == c then x :: l.filter (fun e => blendedKey e == c)
        else l.filter (fun e => blendedKey e == c) := by
  induction l with
  | nil => simp [insertDesc, List.filter_cons, List.filter_nil]
  | cons a as ih =>
    rw [insertDesc]
    split
    · simp [List.filter_cons]
    · rename_i hax
      have hkx : blendedKey x < blendedKey a := lt_of_not_le hax
      rw [List.filter_cons, ih]
      by_cases hxc : blendedKey x = c
      · have hac : (blendedKey a == c) = false := by
          simp only [beq_eq_false_iff_ne, ne_eq]
          intro h; rw [← hxc] at h; exact absurd h (ne_of_gt hkx)
        simp [hxc, hac, List.filter_cons]
      · have hxc2 : (blendedKey x == c) = false := by simpa using hxc
        simp [hxc2, List.filter_cons]

theorem filter_sortDesc (l : List (String × DocInfo)) (c : ℚ) :
    (sortDesc l).filter (fun e => blendedKey e == c)
      = l.filter (fun e => blendedKey e == c) := by
  induction l with
  | nil => simp [sortDesc]
  | cons a as ih =>
    rw [sortDesc, filter_insertDesc, List.filter_cons]
    split <;> simp_all

theorem rerankPre_map_fst (env : Env) (q : String) (pool : List (String × DocInfo))
    (hl : (env.cross (rerankPairs q pool)).length = pool.length) :
    (rerankPre env q pool).map Prod.fst = pool.map Prod.fst := by
  unfold rerankPre
  rw [List.map_map]
  have hz : (pool.zip (env.cross (rerankPairs q pool))).map Prod.fst = pool :=
    List.map_fst_zip _ _ (le_of_eq hl.symm)
  calc (pool.zip (env.cross (rerankPairs q pool))).map
        (Prod.fst ∘ fun x => (x.1.1, applyRerankScores x.1.2 x.2))
      = ((pool.zip (env.cross (rerankPairs q pool))).map Prod.fst).map Prod.fst := by
        rw [List.map_map]; rfl
    _ = pool.map Prod.fst := by rw [hz]

/-- C7: the reranker output is sorted descending by `blended_score`, and the
sort is stable: for every score value `c`, the sub-sequence of entries with
`blended_score = c` is exactly the corresponding sub-sequence of the pre-sort
list, which itself lists the pool's entries in pool iteration order (shown by
the third conjunct, assuming the cross-encoder honours its same-length
contract). -/
theorem C7_rerank_sorted_stable (env : Env) (q : String) (pool : List (String × DocInfo))
    (hl : (env.cross (rerankPairs q pool)).length = pool.length) :
    ((rerank_results env q pool).2).Pairwise (fun a b => blendedKey b ≤ blendedKey a)
    ∧ (∀ c : ℚ, ((rerank_results env q pool).2).filter (fun e => blendedKey e == c)
        = (rerankPre env q pool).filter (fun e => blendedKey e == c))
    ∧ (rerankPre env q pool).map Prod.fst = pool.map Prod.fst := by
  refine ⟨?_, ?_, rerankPre_map_fst env q pool hl⟩
  · unfold rerank_results
    split
    · simp
    · exact sortDesc_sorted _
  · intro c
    unfold rerank_results
    split
    · rename_i h
      have : pool = [] := by simpa [List.isEmpty_iff] using h
      subst this
      simp [rerankPre, rerankPairs]
    · exact filter_sortDesc _ c

/-- C10: `rerank_results` updates the caller's pool in place.  In the
state-passing embedding the first component is the pool as the caller sees it
after the call: it has the same keys in the same order, every one of its
dictionaries now carries the keys `original_score`, `rerank_score` and
`blended_score`, and every tuple of the returned ranking is one of those same
(updated) pool entries — Python returns aliases of the mutated dictionaries,
not copies. -/
theorem C10_rerank_state_update (env : Env) (q : String) (pool : List (String × DocInfo))
    (hl : (env.cross (rerankPairs q pool)).length = pool.length) :
    ((rerank_results env q pool).1.map Prod.fst = pool.map Prod.fst)
    ∧ (∀ p ∈ (rerank_results env q pool).1,
        p.2.original_score.isSome ∧ p.2.rerank_score.isSome ∧ p.2.blended_score.isSome)
    ∧ (∀ x ∈ (rerank_results env q pool).2, x ∈ (rerank_results env q pool).1) := by
  have hpre : (rerankPre env q pool).length = pool.length := by
    unfold rerankPre
    rw [List.length_map, List.length_zip, hl, min_self]
  have h1 : (rerank_results env q pool).1 = rerankPre env q pool ∨ pool = [] := by
    unfold rerank_results
    split
    · rename_i h
      right; simpa [List.isEmpty_iff] using h
    · left
      simp [hpre]
  rcases h1 with h1 | rfl
  · refine ⟨by rw [h1]; exact rerankPre_map_fst env q pool hl, ?_, ?_⟩
    · intro p hp
      rw [h1] at hp
      unfold rerankPre at hp
      rcases List.mem_map.mp hp with ⟨⟨pp, r⟩, hmem, rfl⟩
      exact ⟨rfl, rfl, rfl⟩
    · intro x hx
      rw [h1]
      rcases mem_rerank_output env q pool x hx with ⟨p, r, hmem, rfl⟩
      unfold rerankPre
      exact List.mem_map.mpr ⟨(p, r), hmem, rfl⟩
  · refine ⟨rfl, ?_, ?_⟩
    · intro p hp; simp [rerank_results] at hp
    · intro x hx; simp [rerank_results] at hx

/-- C4 witness: under `envC4`, variations `"a"` and `"b"` both surface id
`"X"`; the pool records `"X"` with `source_query = "a"` and the theorem's
conclusions hold at that concrete entry. -/
theorem C4_witness :
    (("X", mkCandidate mC4 "a" "textX") ∈ retrievePool envC4 ["a", "b"] 20)
    ∧ (∃ pre post, (["a", "b"] : List String).take 3
          = pre ++ ("X", mkCandidate mC4 "a" "textX").2.source_query :: post
        ∧ surfaced envC4 20 ("X", mkCandidate mC4 "a" "textX").2.source_query "X" = true
        ∧ ∀ v ∈ pre, surfaced envC4 20 v "X" = false) :=
  ⟨by decide, (C4_pool_first_seen envC4 ["a", "b"] 20).2.2 _ (by decide)⟩

/-- C5 witness: the formula theorem applied to the concrete single-candidate
pool `poolW1` under `envW` (cross-encoder logit 0). -/
theorem C5_witness :
    entryW ∈ (rerank_results envW "q" poolW1).2
    ∧ (entryW.2.original_score = some entryW.2.score
      ∧ ∃ raw, entryW.2.rerank_score = some raw
          ∧ entryW.2.blended_score = some ((entryW.2.score + (raw + 10) / 20) / 2)) := by
  have hmem : entryW ∈ (rerank_results envW "q" poolW1).2 := by
    show entryW ∈ [entryW]
    exact List.mem_singleton.mpr rfl
  exact ⟨hmem, C5_blended_formula envW "q" poolW1 entryW hmem⟩

/-- C7 witness: the sortedness/stability theorem applied to the concrete
two-candidate pool `poolW2` under `envW` (equal logits, hence equal blended
scores: the tie case is exercised). -/
theorem C7_witness :
    (envW.cross (rerankPairs "q" poolW2)).length = poolW2.length
    ∧ (((rerank_results envW "q" poolW2).2).Pairwise
        (fun a b => blendedKey b ≤ blendedKey a)
      ∧ (∀ c : ℚ, ((rerank_results envW "q" poolW2).2).filter (fun e => blendedKey e == c)
          = (rerankPre envW "q" poolW2).filter (fun e => blendedKey e == c))
      ∧ (rerankPre envW "q" poolW2).map Prod.fst = poolW2.map Prod.fst) :=
  ⟨by decide, C7_rerank_sorted_stable envW "q" poolW2 (by decide)⟩

/-- C10 witness: the state-update theorem applied to the concrete pool
`poolW2` under `envW`. -/
theorem C10_witness :
    (envW.cross (rerankPairs "q" poolW2)).length = poolW2.length
    ∧ (((rerank_results envW "q" poolW2).1.map Prod.fst = poolW2.map Prod.fst)
      ∧ (∀ p ∈ (rerank_results envW "q" poolW2).1,
          p.2.original_score.isSome ∧ p.2.rerank_score.isSome ∧ p.2.blended_score.isSome)
      ∧ (∀ x ∈ (rerank_results envW "q" poolW2).2, x ∈ (rerank_results envW "q" poolW2).1)) :=
  ⟨by decide, C10_rerank_state_update envW "q" poolW2 (by decide)⟩

/-- C2 counterexample: with one matching document (`envC2`), a caller-supplied
`top_k = 0` reaches the pipeline unclamped and produces an empty result,
whereas the claimed clamping `max 1 (min top_k 20)` would produce one result:
the pipeline does not behave as if `top_k` were clamped to `[1, 20]`. -/
theorem C2_counterexample :
    perform_search envC2 "hello" 0 ≠ perform_search envC2 "hello" (max 1 (min 0 20)) := by
  decide

/-- C2 (amended): no server-side clamping of `top_k` exists — the `[1, 20]`
bounds live only in the declarative tool input schema.  Within the declared
range the pipeline coincides with its clamped variant (the clamp is the
identity there), and for the out-of-range value `top_k = 0` the pipeline
returns an empty result regardless of the environment (either the pool is
empty or `reranked[:0] = []`), instead of behaving like `top_k = 1`. -/
theorem C2_amended_no_clamp :
    (∀ (env : Env) (q : String) (k : Int), 1 ≤ k → k ≤ 20 →
      perform_search env q k = perform_search env q (max 1 (min k 20)))
    ∧ (∀ (env : Env) (q : String), perform_search env q 0 = []) := by
  constructor
  · intro env q k h1 h2
    rw [min_eq_left h2, max_eq_right h1]
  · intro env q
    unfold perform_search
    dsimp only
    split
    · rfl
    · simp [pyTake]

/-- C2 witness: the amended theorem applied at `top_k = 5` (in range) and at
`top_k = 0` under the concrete environment `envC2`. -/
theorem C2_witness :
    ((1 : Int) ≤ 5 ∧ (5 : Int) ≤ 20
      ∧ perform_search envC2 "hello" 5 = perform_search envC2 "hello" (max 1 (min 5 20)))
    ∧ perform_search envC2 "hello" 0 = [] :=
  ⟨⟨by decide, by decide, C2_amended_no_clamp.1 envC2 "hello" 5 (by decide) (by decide)⟩,
   C2_amended_no_clamp.2 envC2 "hello"⟩

/-- The length of a result block is the block-with-empty-file-name length
plus the file name length (the file name is rendered verbatim, untruncated). -/
theorem blockLen_fileName (i : Nat) (docId : String) (d : DocInfo) (f : String) :
    (resultBlock i docId { d with file_name := f }).length
      = (resultBlock i docId { d with file_name := "" }).length + f.length := by
  simp [resultBlock, String.length_append]
  omega

theorem resultBlock_pos (i : Nat) (docId : String) (d : DocInfo) :
    0 < (resultBlock i docId d).length := by
  have h9 : (0 : Nat) < "**Result ".length := by decide
  simp only [resultBlock, String.length_append]
  omega

set_option maxRecDepth 8192 in
theorem c1_small : c1HeaderLen + c1Overhead <= 900000 := by decide

set_option maxRecDepth 8192 in
theorem c1_h2 : (String.mk (List.replicate (900000 - c1HeaderLen - c1Overhead) 'a')).length
    = 900000 - c1HeaderLen - c1Overhead := by
  show (List.replicate (900000 - c1HeaderLen - c1Overhead) 'a').length = _
  simp

theorem blockLen_c1 (f : String) :
    (resultBlock 1 "d1" { c1BaseDoc with file_name := f }).length = c1Overhead + f.length := by
  have h := blockLen_fileName 1 "d1" c1BaseDoc f
  rw [h]
  rfl

theorem c1doc1_eq : c1Doc1 = { c1BaseDoc with file_name := bigName } := rfl

set_option maxRecDepth 8192 in
theorem c1_hb : (resultBlock 1 "d1" c1Doc1).length
    = c1Overhead + (900000 - c1HeaderLen - c1Overhead) := by
  rw [c1doc1_eq, blockLen_c1 bigName]
  have : bigName.length = 900000 - c1HeaderLen - c1Overhead := by
    show (List.replicate (900000 - c1HeaderLen - c1Overhead) 'a').length = _
    simp
  rw [this]

set_option maxRecDepth 16384 in
theorem c1_sum : (searchHeader "q" 2).length + (resultBlock 1 "d1" c1Doc1).length = 900000 := by
  have hsmall : c1HeaderLen + c1Overhead ≤ 900000 := by decide
  have hH : (searchHeader "q" 2).length = c1HeaderLen := rfl
  rw [c1_hb, hH]
  omega

theorem totalLen_nil : totalLen [] = 0 := rfl

theorem totalLen_cons (b : String) (bs : List String) :
    totalLen (b :: bs) = b.length + totalLen bs := rfl

theorem formatLoop_nil (i : Nat) (out : String) (cs : Nat) :
    formatLoop i out cs [] = out := rfl

theorem formatLoop_cons (i : Nat) (out : String) (cs : Nat) (docId : String)
    (d : DocInfo) (rest : List (String × DocInfo)) :
    formatLoop i out cs ((docId, d) :: rest)
      = if cs + (resultBlock i docId d).length > 900000 then out ++ omitNotice
        else formatLoop (i + 1) (out ++ resultBlock i docId d)
          (cs + (resultBlock i docId d).length) rest := rfl

theorem c1_step2 : searchFormat "q" c1Results
    = searchHeader "q" 2 ++ resultBlock 1 "d1" c1Doc1 ++ omitNotice := by
  have e1 : searchFormat "q" c1Results
      = formatLoop 1 (searchHeader "q" 2) (searchHeader "q" 2).length c1Results := rfl
  have e2 : c1Results = [("d1", c1Doc1), ("d2", c1Doc2)] := rfl
  rw [e1, e2, formatLoop_cons]
  rw [if_neg (by rw [c1_sum]; omega)]
  rw [formatLoop_cons]
  rw [if_pos ?hc]
  case hc =>
    rw [c1_sum]
    have hp := resultBlock_pos (1 + 1) "d2" c1Doc2
    omega

/-- C1 counterexample: a concrete ranked sequence (one block sized to land
exactly on the 900,000 ceiling, plus one more result) makes the rendered
output `header ++ block1 ++ omission notice`, which is strictly longer than
900,000 characters — the notice is appended after the size check without
being counted, so the claimed ceiling is exceeded. -/
theorem C1_counterexample : ¬ ((searchFormat "q" c1Results).length ≤ 900000) := by
  rw [c1_step2]
  rw [String.length_append, String.length_append, c1_sum]
  have : 0 < omitNotice.length := by decide
  omega

theorem formatLoop_bound : ∀ (rs : List (String × DocInfo)) (i : Nat) (out : String),
    (formatLoop i out out.length rs).length ≤ max out.length 900000 + omitNotice.length := by
  intro rs
  induction rs with
  | nil =>
    intro i out
    rw [formatLoop_nil]
    have := le_max_left out.length 900000
    omega
  | cons hd rest ih =>
    intro i out
    obtain ⟨docId, d⟩ := hd
    rw [formatLoop_cons]
    by_cases hc : out.length + (resultBlock i docId d).length > 900000
    · rw [if_pos hc, String.length_append]
      have := le_max_left out.length 900000
      omega
    · rw [if_neg hc]
      have hlen : out.length + (resultBlock i docId d).length
          = (out ++ resultBlock i docId d).length := (String.length_append _ _).symm
      rw [hlen]
      have hrec := ih (i + 1) (out ++ resultBlock i docId d)
      have hsz : (out ++ resultBlock i docId d).length ≤ 900000 := by
        rw [← hlen]; omega
      have h1 : max (out ++ resultBlock i docId d).length 900000 = 900000 :=
        max_eq_right hsz
      have h2 : (900000 : Nat) ≤ max out.length 900000 := le_max_right _ _
      omega

theorem formatLoop_exceed : ∀ (rs : List (String × DocInfo)) (i : Nat) (out : String),
    out.length ≤ 900000 →
    out.length + totalLen (blocksFrom i rs) > 900000 →
    ∃ n, n < rs.length ∧ formatLoop i out out.length rs
        = out ++ concatBlocks ((blocksFrom i rs).take n) ++ omitNotice := by
  intro rs
  induction rs with
  | nil =>
    intro i out h1 h2
    rw [show blocksFrom i ([] : List (String × DocInfo)) = [] from rfl, totalLen_nil] at h2
    omega
  | cons hd rest ih =>
    intro i out h1 h2
    obtain ⟨docId, d⟩ := hd
    rw [formatLoop_cons]
    by_cases hc : out.length + (resultBlock i docId d).length > 900000
    · refine ⟨0, by simp, ?_⟩
      rw [if_pos hc]
      show out ++ omitNotice = out ++ concatBlocks [] ++ omitNotice
      rw [show concatBlocks [] = "" from rfl]
      simp
    · rw [if_neg hc]
      have hlen : out.length + (resultBlock i docId d).length
          = (out ++ resultBlock i docId d).length := (String.length_append _ _).symm
      rw [hlen]
      have hsum : totalLen (blocksFrom i ((docId, d) :: rest))
          = (resultBlock i docId d).length
            + totalLen (blocksFrom (i + 1) rest) := rfl
      have h2r : (out ++ resultBlock i docId d).length
          + totalLen (blocksFrom (i + 1) rest) > 900000 := by
        rw [← hlen]
        omega
      have h1r : (out ++ resultBlock i docId d).length ≤ 900000 := by
        rw [← hlen]; omega
      rcases ih (i + 1) (out ++ resultBlock i docId d) h1r h2r with ⟨n, hn, heq⟩
      refine ⟨n + 1, by simpa using hn, ?_⟩
      rw [heq]
      rw [show blocksFrom i ((docId, d) :: rest)
          = resultBlock i docId d :: blocksFrom (i + 1) rest from rfl]
      rw [show (resultBlock i docId d :: blocksFrom (i + 1) rest).take (n + 1)
          = resultBlock i docId d :: (blocksFrom (i + 1) rest).take n from rfl]
      rw [show concatBlocks (resultBlock i docId d :: (blocksFrom (i + 1) rest).take n)
          = resultBlock i docId d ++ concatBlocks ((blocksFrom (i + 1) rest).take n) from rfl]
      simp [String.append_assoc]

/-- C1 (amended): the formatter's output length is bounded by
`max headerLen 900000` plus the length of the omission notice (the ceiling
can be overshot by exactly the notice, or by an oversized header, but by no
more); and whenever the header plus all blocks would exceed the ceiling, the
output is the header, a strict prefix of the whole block list (each block
intact, never cut mid-way), and the "remaining results omitted" notice. -/
theorem C1_amended_budget :
    (∀ (q : String) (rs : List (String × DocInfo)),
      (searchFormat q rs).length ≤ max (searchHeader q rs.length).length 900000 + omitNotice.length)
    ∧ (∀ (q : String) (rs : List (String × DocInfo)), rs ≠ [] →
      (searchHeader q rs.length).length + totalLen (blocksFrom 1 rs) > 900000 →
      ∃ n, n < rs.length ∧ searchFormat q rs
          = searchHeader q rs.length ++ concatBlocks ((blocksFrom 1 rs).take n) ++ omitNotice) := by
  constructor
  · intro q rs
    exact formatLoop_bound rs 1 (searchHeader q rs.length)
  · intro q rs hne hex
    by_cases hH : (searchHeader q rs.length).length ≤ 900000
    · exact formatLoop_exceed rs 1 (searchHeader q rs.length) hH hex
    · rcases rs with _ | ⟨⟨docId, d⟩, rest⟩
      · exact absurd rfl hne
      · refine ⟨0, by simp, ?_⟩
        have e : searchFormat q ((docId, d) :: rest)
            = formatLoop 1 (searchHeader q ((docId, d) :: rest).length)
              (searchHeader q ((docId, d) :: rest).length).length ((docId, d) :: rest) := rfl
        rw [e, formatLoop_cons, if_pos (by omega)]
        rw [show ((blocksFrom 1 ((docId, d) :: rest)).take 0) = [] from rfl,
          show concatBlocks [] = "" from rfl]
        simp

theorem c1_hex : (searchHeader "q" c1Results.length).length
    + totalLen (blocksFrom 1 c1Results) > 900000 := by
  rw [show c1Results.length = 2 from rfl]
  rw [show blocksFrom 1 c1Results
      = [resultBlock 1 "d1" c1Doc1, resultBlock (1 + 1) "d2" c1Doc2] from rfl]
  rw [totalLen_cons, totalLen_cons, totalLen_nil]
  have h2 := resultBlock_pos (1 + 1) "d2" c1Doc2
  have hs := c1_sum
  omega

/-- C1 witness: the amended theorem applied to the concrete over-budget
ranked sequence `c1Results`. -/
theorem C1_witness :
    (c1Results ≠ []
      ∧ (searchHeader "q" c1Results.length).length
          + totalLen (blocksFrom 1 c1Results) > 900000)
    ∧ (∃ n, n < c1Results.length ∧ searchFormat "q" c1Results
        = searchHeader "q" c1Results.length
          ++ concatBlocks ((blocksFrom 1 c1Results).take n) ++ omitNotice) :=
  ⟨⟨by decide, c1_hex⟩, C1_amended_budget.2 "q" c1Results (by decide) c1_hex⟩
